import Mathlib

/-!
Verification of the SentenceVAE model (model.py) against its natural-language
specification.  The embedding is shallow: tensor shapes are lists of dimension
sizes, the autoregressive generation loop's index bookkeeping is embedded over
lists of indices, and the purely numeric kernels (embedding lookup, one
recurrent step, linear projection, greedy argmax) — through which the rows of
a batch pass independently of each other — are abstracted as function
parameters.  Python name resolution is modelled explicitly where the source
reads identifiers that are not bound in the enclosing scope.
-/

namespace VaeSpec

/-- Python identifiers that the source reads; used to model name resolution
and the NameError exceptions raised on unbound names. -/
inductive PyName where
  | selfN | bsN | meanN | logvN | stdN | batchSizeN
  | inputSequenceN | inputSeqN | lengthN | sortedLengthsN | sortedIdxN
  deriving DecidableEq, Repr

/-- Python exceptions that the modelled code can raise. -/
inductive PyErr where
  | nameError (n : PyName)
  | valueError
  deriving DecidableEq, Repr

/-- Reading a name in a Python scope: returns unit if the name is bound,
raises NameError otherwise. -/
def readVar (scope : List PyName) (n : PyName) : Except PyErr Unit :=
  if n ∈ scope then Except.ok () else Except.error (PyErr.nameError n)

/-- The recurrent-cell kinds actually constructed by SentenceVAE.__init__
(model.py lines 31-38); the lstm branch is commented out in the source. -/
inductive RnnKind where
  | rnn | gru
  deriving DecidableEq, Repr

/-- Embeds the rnn_type dispatch of SentenceVAE.__init__ (model.py lines
31-38): 'rnn' and 'gru' select a cell class, anything else — including the
commented-out 'lstm' — raises ValueError. -/
def selectRnn (rnnType : String) : Except PyErr RnnKind :=
  if rnnType = ("rnn") then Except.ok RnnKind.rnn
  else if rnnType = ("gru") then Except.ok RnnKind.gru
  else Except.error PyErr.valueError

/-- The configuration state a successfully constructed SentenceVAE holds
(model.py lines 14-48), with the numeric parameter tensors abstracted away. -/
structure SentenceVAEModel where
  maxSequenceLength : Nat
  sosIdx : Nat
  eosIdx : Nat
  padIdx : Nat
  unkIdx : Nat
  latentSize : Nat
  rnnKind : RnnKind
  bidirectional : Bool
  numLayers : Nat
  hiddenSize : Nat
  hiddenFactorF : Nat
  deriving DecidableEq, Repr

/-- Embeds hidden_factor = (2 if bidirectional else 1) * num_layers
(model.py line 43). -/
def hiddenFactor (bidirectional : Bool) (numLayers : Nat) : Nat :=
  (if bidirectional then 2 else 1) * numLayers

/-- Embeds SentenceVAE.__init__ (model.py lines 8-48): the rnn_type dispatch
raises ValueError before any recurrent layer is built, so construction either
fails with a configuration error or yields a complete model; no partially
constructed model is ever returned to the caller. -/
def sentenceVAEInit (rnnType : String) (hiddenSize latentSize : Nat)
    (sosIdx eosIdx padIdx unkIdx maxSequenceLength numLayers : Nat)
    (bidirectional : Bool) : Except PyErr SentenceVAEModel :=
  match selectRnn rnnType with
  | Except.error e => Except.error e
  | Except.ok k =>
      Except.ok ⟨maxSequenceLength, sosIdx, eosIdx, padIdx, unkIdx, latentSize,
        k, bidirectional, numLayers, hiddenSize, hiddenFactor bidirectional numLayers⟩

/-- A tensor shape: the list of its dimension sizes. -/
abbrev Shape := List Nat

/-- Embeds torch.Tensor.squeeze() with no axis argument: removes every dimension of
size 1 (model.py line 65 uses this generic form). -/
def squeezeAll (s : Shape) : Shape :=
  s.filter (fun d => d ≠ 1)

/-- Shape of the final hidden state returned by the encoder RNN:
(num_layers * num_directions, batch, hidden_size). -/
def encoderHiddenShape (bidirectional : Bool) (numLayers bs hiddenSize : Nat) : Shape :=
  [hiddenFactor bidirectional numLayers, bs, hiddenSize]

/-- Embeds the hidden-state flattening of SentenceVAE.encoder (model.py lines
62-65): view(bs, hidden_size*hidden_factor) when bidirectional or multilayer,
otherwise a generic hidden.squeeze(). -/
def encoderFlattenShape (bidirectional : Bool) (numLayers bs hiddenSize : Nat) : Shape :=
  if bidirectional || decide (1 < numLayers) then
    [bs, hiddenSize * hiddenFactor bidirectional numLayers]
  else
    squeezeAll (encoderHiddenShape bidirectional numLayers bs hiddenSize)

/-- Embeds unsqueeze(0): prepend a dimension of size 1. -/
def unsqueeze0 (s : Shape) : Shape := 1 :: s

/-- Embeds the latent-to-hidden un-flattening of SentenceVAE.decoder
(model.py lines 86-92): latent2hidden(z) has shape (bs, hidden*factor); it is
viewed as (factor, bs, hidden) when bidirectional or multilayer, otherwise
unsqueezed at dimension 0. -/
def decoderInitHiddenShape (bidirectional : Bool) (numLayers bs hiddenSize : Nat) : Shape :=
  if bidirectional || decide (1 < numLayers) then
    [hiddenFactor bidirectional numLayers, bs, hiddenSize]
  else
    unsqueeze0 [bs, hiddenSize * hiddenFactor bidirectional numLayers]

/-- Embeds the latent-to-hidden un-flattening of SentenceVAE.inference
(model.py lines 151-157): same view as the decoder when bidirectional or
multilayer, but the unsqueeze(0) on line 157 is applied unconditionally,
after the branch rather than in an else. -/
def inferenceInitHiddenShape (bidirectional : Bool) (numLayers bs hiddenSize : Nat) : Shape :=
  let h :=
    if bidirectional || decide (1 < numLayers) then
      [hiddenFactor bidirectional numLayers, bs, hiddenSize]
    else
      [bs, hiddenSize * hiddenFactor bidirectional numLayers]
  unsqueeze0 h

/-- Shape of the indices returned by torch.topk(dist, 1, dim=-1): the last
dimension is replaced by 1 (model.py line 207). -/
def topkIdxShape (s : Shape) : Shape := s.dropLast ++ [1]

/-- Embeds SentenceVAE._sample at the shape level (model.py lines 204-214):
greedy topk along the vocabulary dimension, a generic squeeze(), then the
defensive reshape of a 0-dimensional result to a 1-dimensional tensor of
length 1. -/
def sampleShape (s : Shape) : Shape :=
  let sq := squeezeAll (topkIdxShape s)
  if sq.length = 0 then [1] else sq

/-- Embeds the per-token effect of the word-dropout block of
SentenceVAE.decoder (model.py lines 95-106): prob is a fresh uniform draw in
[0,1); positions whose token satisfies (x - sos_idx) * (x - pad_idx) == 0
have their prob overwritten with 1; tokens at positions with prob <
word_dropout_rate are replaced by unk_idx. Token ids are integers. -/
def wordDropoutTok (rate : ℚ) (sosIdx padIdx unkIdx : Int) (p : ℚ) (tok : Int) : Int :=
  let p' := if (tok - sosIdx) * (tok - padIdx) = 0 then 1 else p
  if p' < rate then unkIdx else tok

/-- Word dropout applied along one row of the batch. -/
def wordDropoutRow (rate : ℚ) (sosIdx padIdx unkIdx : Int)
    (ps : List ℚ) (xs : List Int) : List Int :=
  List.zipWith (wordDropoutTok rate sosIdx padIdx unkIdx) ps xs

/-- Embeds the word-dropout block of SentenceVAE.decoder (model.py lines
95-106) on a (batch, seq) tensor of token ids: the whole block is guarded by
word_dropout_rate > 0, so rate 0 leaves the input untouched; probs holds the
fresh uniform draws of torch.rand(x.size()). -/
def wordDropout (rate : ℚ) (sosIdx padIdx unkIdx : Int)
    (probs : List (List ℚ)) (x : List (List Int)) : List (List Int) :=
  if 0 < rate then
    List.zipWith (wordDropoutRow rate sosIdx padIdx unkIdx) probs x
  else x

/-- Bool-level well-formedness of the uniform draws: probs has the shape of x
and every entry lies in [0, 1), as torch.rand guarantees. -/
def probsOk : List (List ℚ) → List (List Int) → Bool
  | [], [] => true
  | ps :: probs, row :: x =>
      decide (ps.length = row.length) &&
        ps.all (fun p => decide (0 ≤ p) && decide (p < 1)) && probsOk probs x
  | _, _ => false

/-- A store of tensor buffers with abstract contents: references below next
are allocated; writes at a reference mutate that buffer in place. -/
structure Store (T : Type) where
  mem : Nat → T
  next : Nat

/-- Allocate a fresh buffer holding v; returns the new store and the fresh
reference. -/
def Store.alloc {T : Type} (s : Store T) (v : T) : Store T × Nat :=
  (⟨fun r => if r = s.next then v else s.mem r, s.next + 1⟩, s.next)

/-- Overwrite the buffer at reference r in place. -/
def Store.write {T : Type} (s : Store T) (r : Nat) (v : T) : Store T :=
  ⟨fun r' => if r' = r then v else s.mem r', s.next⟩

/-- The numeric tensor kernels used by reparameterize, abstracted: texp is
torch.exp, smul scalar multiplication, mul and add the element-wise ops, and
randn the fresh standard-normal draw. -/
structure ReparamOps (T : Type) where
  texp : T → T
  smul : ℚ → T → T
  mul : T → T → T
  add : T → T → T
  randn : T

/-- Embeds line 78 of model.py, z = z.mul(std).add_(mean): .mul allocates a
fresh product buffer, .add_ then mutates that fresh buffer in place; the
buffers holding z, std and mean are only read. -/
def mulAddStep {T : Type} (ops : ReparamOps T) (s : Store T)
    (zRef stdRef meanRef : Nat) : Store T × Nat :=
  let p := s.alloc (ops.mul (s.mem zRef) (s.mem stdRef))
  (p.1.write p.2 (ops.add (p.1.mem p.2) (p.1.mem meanRef)), p.2)

/-- The names bound inside SentenceVAE.reparameterize when line 77 executes:
self and the parameters bs, mean, logv, plus the local std from line 76. The
identifier batch_size read on line 77 is not among them. -/
def reparamScope : List PyName :=
  [PyName.selfN, PyName.bsN, PyName.meanN, PyName.logvN, PyName.stdN]

/-- Embeds SentenceVAE.reparameterize (model.py lines 71-80) over a store of
tensor buffers. Line 76 allocates std = torch.exp(0.5 * logv); line 77 reads
the unbound identifier batch_size (the parameter is named bs), raising
NameError; the guarded continuation embeds lines 77-80 as they would run were
the name bound. The store is returned alongside the result so mutation can be
observed even on the error path. -/
def reparameterize (T : Type) (ops : ReparamOps T) (s : Store T)
    (bs : Nat) (meanRef logvRef : Nat) : Store T × Except PyErr Nat :=
  let p1 := s.alloc (ops.texp (ops.smul (1 / 2 : ℚ) (s.mem logvRef)))
  match readVar reparamScope PyName.batchSizeN with
  | Except.error e => (p1.1, Except.error e)
  | Except.ok _ =>
      let p2 := p1.1.alloc ops.randn
      let p3 := mulAddStep ops p2.1 p2.2 p1.2 meanRef
      (p3.1, Except.ok p3.2)

/-- Stable insertion of a (length, index) pair into a descending list, used
to model torch.sort(length, descending=True). -/
def insertDesc (p : Nat × Nat) : List (Nat × Nat) → List (Nat × Nat)
  | [] => [p]
  | q :: qs => if q.1 < p.1 then p :: q :: qs else q :: insertDesc p qs

/-- Embeds torch.sort(length, descending=True): returns the sorted lengths and the
permutation indices (model.py line 133). -/
def sortTensorDescending (xs : List Nat) : List Nat × List Nat :=
  let pairs := (List.range xs.length).map (fun i => (xs.getD i 0, i))
  let sorted := pairs.foldr insertDesc []
  (sorted.map Prod.fst, sorted.map Prod.snd)

/-- The names bound inside SentenceVAE.forward when line 134 executes: self,
the parameters input_seq and length, and the locals batch_size,
sorted_lengths, sorted_idx. The identifier input_sequence read on line 134 is
not among them. -/
def forwardScope : List PyName :=
  [PyName.selfN, PyName.inputSeqN, PyName.lengthN, PyName.batchSizeN,
   PyName.sortedLengthsN, PyName.sortedIdxN]

/-- Embeds SentenceVAE.forward (model.py lines 130-140). Lines 132-133 bind
batch_size and the descending sort of the lengths; line 134 then reads the
unbound identifier input_sequence (the parameter is named input_seq), raising
NameError. Were that name bound, the pass would still not return un-sorted
log-probabilities: forward calls self.decoder with five arguments while
decoder (line 83) declares four (TypeError), and decoder itself reads the
unbound identifiers sorted_idx and padded_outputs on lines 118-119 and never
applies reversed_idx to its actual output x_tilde. -/
def forward (model : SentenceVAEModel) (inputSeq : List (List Nat))
    (length : List Nat) : Except PyErr Unit := do
  let _batchSize := inputSeq.length
  let _sorted := sortTensorDescending length
  let _ ← readVar forwardScope PyName.inputSequenceN
  pure ()

/-- Embeds torch.masked_select on same-length tensors: keeps the entries whose mask
bit is set, in order. -/
def maskedSelect {α : Type} : List α → List Bool → List α
  | x :: xs, b :: bs => if b then x :: maskedSelect xs bs else maskedSelect xs bs
  | _, _ => []

/-- Embeds integer fancy indexing xs[idx]; every index used by the modelled code is
in range, where getD returns the indexed entry. -/
def indexSelect {α : Type} [Inhabited α] (xs : List α) (idx : List Nat) : List α :=
  idx.map (fun i => xs.getD i default)

/-- Embeds fancy-index assignment xs[idx] = vals, performed entrywise left to
right. -/
def scatterSet {α : Type} (xs : List α) (idx : List Nat) (vals : List α) : List α :=
  (List.zip idx vals).foldl (fun acc p => acc.set p.1 p.2) xs

/-- Embeds SentenceVAE._save_sample (model.py lines 216-224):
running_latest = save_to[running_seqs]; running_latest[:, t] = sample;
save_to[running_seqs] = running_latest. -/
def saveSample (saveTo : List (List Nat)) (sample : List Nat)
    (runningSeqs : List Nat) (t : Nat) : List (List Nat) :=
  let runningLatest := indexSelect saveTo runningSeqs
  let updated := (List.zip runningLatest sample).map (fun rs => rs.1.set t rs.2)
  scatterSet saveTo runningSeqs updated

/-- The mutable state of the generation loop of SentenceVAE.inference
(model.py lines 159-200): the output buffer, the global mask and global
running-index list, the local running-index list, and t. rowIds is the ghost
list of global indices carried, in order, by the rows of the current pruned
input_sequence/hidden tensors (the tensors themselves are abstracted). -/
structure InfState where
  generations : List (List Nat)
  sequenceMask : List Bool
  sequenceRunning : List Nat
  runningSeqs : List Nat
  rowIds : List Nat
  t : Nat

/-- One iteration of the generation while-loop (model.py lines 169-200).
tok g t abstracts the deterministic per-row computation "embed the previous
token, run one recurrent step, project to vocabulary logits, greedy argmax"
for the sequence at global batch index g at step t; rows of a batch pass
through these kernels independently, so the sampled token of a row does not
depend on which other rows are still active. -/
def inferenceStep (eos : Nat) (tok : Nat → Nat → Nat) (sequenceIdx : List Nat)
    (st : InfState) : InfState :=
  let sample := st.rowIds.map (fun g => tok g st.t)
  let gens := saveSample st.generations sample st.sequenceRunning st.t
  let mask := scatterSet st.sequenceMask st.sequenceRunning (sample.map (fun w => w != eos))
  let seqRunning := maskedSelect sequenceIdx mask
  let runningMask := sample.map (fun w => w != eos)
  let runSeqs := maskedSelect st.runningSeqs runningMask
  if runSeqs.isEmpty then
    ⟨gens, mask, seqRunning, runSeqs, st.rowIds, st.t + 1⟩
  else
    ⟨gens, mask, seqRunning, List.range runSeqs.length,
      indexSelect st.rowIds runSeqs, st.t + 1⟩

/-- The state set up on model.py lines 159-168: all n sequences running, the
output buffer pre-filled with pad_idx, t = 0. -/
def initState (n L padIdx : Nat) : InfState :=
  ⟨List.replicate n (List.replicate L padIdx), List.replicate n true,
    List.range n, List.range n, List.range n, 0⟩

/-- The guard of the while-loop on model.py line 169:
t < max_sequence_length and len(running_seqs) > 0. -/
def loopCond (L : Nat) (st : InfState) : Bool :=
  decide (st.t < L) && !st.runningSeqs.isEmpty

/-- The generation while-loop, driven by fuel; L units of fuel suffice since
t increases by one per iteration. -/
def inferenceLoop (L eos : Nat) (tok : Nat → Nat → Nat) (sequenceIdx : List Nat) :
    Nat → InfState → InfState
  | 0, st => st
  | fuel + 1, st =>
      if loopCond L st then
        inferenceLoop L eos tok sequenceIdx fuel (inferenceStep eos tok sequenceIdx st)
      else st

/-- The list of loop states visited, starting with the given state and ending
with the state on which the guard fails (or fuel runs out). -/
def inferenceTrace (L eos : Nat) (tok : Nat → Nat → Nat) (sequenceIdx : List Nat) :
    Nat → InfState → List InfState
  | 0, st => [st]
  | fuel + 1, st =>
      if loopCond L st then
        st :: inferenceTrace L eos tok sequenceIdx fuel (inferenceStep eos tok sequenceIdx st)
      else [st]

/-- Embeds SentenceVAE.inference (model.py lines 143-202) for a batch of n
latent vectors and max_sequence_length L, returning the generations buffer;
the per-row sampling kernel is the abstract tok. -/
def inference (n L eos padIdx : Nat) (tok : Nat → Nat → Nat) : List (List Nat) :=
  (inferenceLoop L eos tok (List.range n) L (initState n L padIdx)).generations

/-- Row g is still running at step t: none of its first t sampled tokens was
the end-of-sequence token. -/
def aliveB (eos : Nat) (tok : Nat → Nat → Nat) (g t : Nat) : Bool :=
  (List.range t).all (fun q => tok g q != eos)

/-- The contents of output row g after t loop iterations: position q holds
the token sampled at step q if the row was still running then, and pad_idx
otherwise. -/
def rowAt (L eos padIdx : Nat) (tok : Nat → Nat → Nat) (t g : Nat) : List Nat :=
  (List.range L).map (fun q => if decide (q < t) && aliveB eos tok g q then tok g q else padIdx)

/-- The global indices still running at step t, in increasing order. -/
def aliveList (n eos : Nat) (tok : Nat → Nat → Nat) (t : Nat) : List Nat :=
  (List.range n).filter (fun g => aliveB eos tok g t)

/-- The loop invariant of the generation loop: the buffer, mask and both
index lists are determined by the step count, and the ghost rowIds agree with
the global running set whenever the local set is nonempty. -/
def Inv (n L eos padIdx : Nat) (tok : Nat → Nat → Nat) (st : InfState) : Prop :=
  st.generations = (List.range n).map (rowAt L eos padIdx tok st.t) ∧
  st.sequenceMask = (List.range n).map (fun g => aliveB eos tok g st.t) ∧
  st.sequenceRunning = aliveList n eos tok st.t ∧
  st.runningSeqs.length = st.sequenceRunning.length ∧
  (st.runningSeqs = [] ∨
    (st.rowIds = aliveList n eos tok st.t ∧
      st.runningSeqs = List.range st.runningSeqs.length))

/-- What the specification asserts of one returned generation row for global
index g: it has length L, and either it shows the end-of-sequence token at
some position p < L with pad_idx at every later position, or it contains no
end-of-sequence token and every position q < L holds the token sampled at
step q. -/
def rowOkP (L eos padIdx : Nat) (tok : Nat → Nat → Nat) (g : Nat) (row : List Nat) : Prop :=
  row.length = L ∧
  ((∃ p, p < L ∧ row.get? p = some eos ∧
      ∀ q, p < q → q < L → row.get? q = some padIdx) ∨
    (eos ∉ row ∧ row = (List.range L).map (fun q => tok g q)))

lemma store_alloc_mem_of_lt {T : Type} (s : Store T) (v : T) (r : Nat)
    (h : r < s.next) : (s.alloc v).1.mem r = s.mem r := by
  show (if r = s.next then v else s.mem r) = s.mem r
  exact if_neg (Nat.ne_of_lt h)

lemma mulAddStep_mem_of_lt {T : Type} (ops : ReparamOps T) (s : Store T)
    (zRef stdRef meanRef r : Nat) (h : r < s.next) :
    (mulAddStep ops s zRef stdRef meanRef).1.mem r = s.mem r := by
  show (if r = s.next then _ else if r = s.next then _ else s.mem r) = s.mem r
  rw [if_neg (Nat.ne_of_lt h), if_neg (Nat.ne_of_lt h)]

lemma reparameterize_fst (T : Type) (ops : ReparamOps T) (s : Store T)
    (bs meanRef logvRef : Nat) :
    (reparameterize T ops s bs meanRef logvRef).1
      = (s.alloc (ops.texp (ops.smul (1 / 2 : ℚ) (s.mem logvRef)))).1 := rfl

/-- Claim C1: the forward pass is claimed to sort the batch by descending
length, run encoder/sampler/decoder, and return log-probabilities restored to
the caller's original batch order; the code instead raises NameError on every
call, because line 134 reads the unbound identifier input_sequence (the
parameter is named input_seq), and the decoder never applies the un-sort
permutation to its actual output. -/
theorem forward_always_name_error (model : SentenceVAEModel)
    (inputSeq : List (List Nat)) (length : List Nat) :
    forward model inputSeq length = Except.error (PyErr.nameError PyName.inputSequenceN) := rfl

/-- Claim C3: reparameterize is claimed to return mean + exp(0.5*logvar) *
noise with the batch size taken from the caller's current batch; the code
instead raises NameError on every call, because line 77 reads the unbound
identifier batch_size while the parameter is named bs. -/
theorem reparameterize_always_name_error (T : Type) (ops : ReparamOps T)
    (s : Store T) (bs meanRef logvRef : Nat) :
    (reparameterize T ops s bs meanRef logvRef).2
      = Except.error (PyErr.nameError PyName.batchSizeN) := rfl

/-- Claim C10: a call to reparameterize leaves the caller's mean and
log-variance buffers unmodified — both on the path actually taken (which
allocates std and then raises NameError) and in the in-place arithmetic of
line 78, z.mul(std).add_(mean), whose only write goes to the freshly
allocated product buffer, never to a previously allocated one. -/
theorem reparameterize_frame (T : Type) (ops : ReparamOps T) (s : Store T)
    (bs meanRef logvRef zRef stdRef : Nat)
    (hm : meanRef < s.next) (hl : logvRef < s.next) :
    ((reparameterize T ops s bs meanRef logvRef).1.mem meanRef = s.mem meanRef ∧
      (reparameterize T ops s bs meanRef logvRef).1.mem logvRef = s.mem logvRef) ∧
    ∀ r, r < s.next → (mulAddStep ops s zRef stdRef meanRef).1.mem r = s.mem r := by
  refine ⟨⟨?_, ?_⟩, fun r hr => mulAddStep_mem_of_lt ops s zRef stdRef meanRef r hr⟩
  · rw [reparameterize_fst]
    exact store_alloc_mem_of_lt s _ meanRef hm
  · rw [reparameterize_fst]
    exact store_alloc_mem_of_lt s _ logvRef hl

/-- Witness for reparameterize_frame at a concrete store with two allocated
buffers. -/
theorem reparameterize_frame_witness :
    ((reparameterize ℚ ⟨id, fun _ x => x, fun x _ => x, fun x _ => x, 0⟩
        ⟨fun _ => 0, 2⟩ 1 0 1).1.mem 0 = (0 : ℚ) ∧
      (reparameterize ℚ ⟨id, fun _ x => x, fun x _ => x, fun x _ => x, 0⟩
        ⟨fun _ => 0, 2⟩ 1 0 1).1.mem 1 = (0 : ℚ)) ∧
    (mulAddStep ⟨id, fun _ x => x, fun x _ => x, fun x _ => x, 0⟩
        ⟨fun _ => 0, 2⟩ 0 1 0).1.mem 0 = (0 : ℚ) := by
  have h := reparameterize_frame ℚ ⟨id, fun _ x => x, fun x _ => x, fun x _ => x, 0⟩
    ⟨fun _ => 0, 2⟩ 1 0 1 0 1 (by decide) (by decide)
  exact ⟨h.1, h.2 0 (by decide)⟩

/-- Claim C6: the encoder's hidden-state flattening is claimed to return a
2-D (batch, hidden_size) tensor for every batch size; for num_layers = 1,
bidirectional = False and batch size 1 the generic hidden.squeeze() of line
65 collapses the batch dimension too, returning the 1-D shape (hidden_size,)
instead of (1, hidden_size), while batch sizes ≥ 2 are flattened as
claimed. -/
theorem encoder_flatten_collapses_batch_one :
    encoderFlattenShape false 1 1 16 = [16] ∧
    encoderFlattenShape false 1 2 16 = [2, 16] ∧
    encoderFlattenShape false 1 1 16 ≠ [1, 16] := by decide

/-- Claim C7: the generator is claimed to feed its recurrent cell the same
initial hidden state the teacher-forced decoder builds from the same z, of
shape (num_layers * num_directions, batch, hidden_size); because the
unsqueeze(0) on line 157 is applied unconditionally, the generator's state
gains an extra leading dimension whenever num_layers > 1 or bidirectional
(here num_layers = 2: 4-D (1, 2, batch, hidden) versus the decoder's 3-D
(2, batch, hidden)), and the two agree only in the single-layer
unidirectional configuration. -/
theorem generator_hidden_mismatch :
    decoderInitHiddenShape false 2 3 4 = [2, 3, 4] ∧
    inferenceInitHiddenShape false 2 3 4 = [1, 2, 3, 4] ∧
    inferenceInitHiddenShape false 2 3 4 ≠ decoderInitHiddenShape false 2 3 4 ∧
    inferenceInitHiddenShape false 1 3 4 = decoderInitHiddenShape false 1 3 4 := by decide

/-- Claim C8: construction succeeds exactly for the implemented
recurrent-cell kinds 'rnn' and 'gru'; every other configuration value —
including the reserved 'lstm' — makes construction fail fast with
ValueError, and no model value is produced on the error path. -/
theorem rnn_type_validation :
    ∀ (rnnType : String) (hiddenSize latentSize sos eos pad unk maxLen numLayers : Nat)
      (bidirectional : Bool),
      ((∃ m, sentenceVAEInit rnnType hiddenSize latentSize sos eos pad unk maxLen
          numLayers bidirectional = Except.ok m)
        ↔ (rnnType = ("rnn") ∨ rnnType = ("gru"))) ∧
      sentenceVAEInit ("lstm") hiddenSize latentSize sos eos pad unk maxLen
        numLayers bidirectional = Except.error PyErr.valueError := by
  intro rnnType hiddenSize latentSize sos eos pad unk maxLen numLayers bidirectional
  constructor
  · constructor
    · rintro ⟨m, hm⟩
      by_cases h1 : rnnType = ("rnn")
      · exact Or.inl h1
      by_cases h2 : rnnType = ("gru")
      · exact Or.inr h2
      simp [sentenceVAEInit, selectRnn, h1, h2] at hm
    · rintro (h | h) <;> subst h <;> exact ⟨_, rfl⟩
  · rfl

/-- Claim C9: the greedy sampling step always returns a 1-D tensor with one
entry per active sequence: topk along the vocabulary dimension of the
(k, 1, vocab) logits followed by a generic squeeze yields shape (k,) for
k ≥ 2, and for a single active sequence the squeeze degenerates to a 0-D
value which _sample reshapes back to the 1-D shape (1,). -/
theorem sample_shape_one_dim :
    ∀ k vocab : Nat, sampleShape [k, 1, vocab] = [k] ∧
      squeezeAll (topkIdxShape [1, 1, vocab]) = [] := by
  intro k vocab
  constructor
  · by_cases hk : k = 1
    · subst hk; rfl
    · simp [sampleShape, topkIdxShape, squeezeAll, List.filter, hk]
  · rfl

lemma wordDropoutTok_one (sosIdx padIdx unkIdx : Int) (p : ℚ) (hp : p < 1) (t : Int) :
    wordDropoutTok 1 sosIdx padIdx unkIdx p t
      = if t = sosIdx ∨ t = padIdx then t else unkIdx := by
  unfold wordDropoutTok
  by_cases h : (t - sosIdx) * (t - padIdx) = 0
  · have ht : t = sosIdx ∨ t = padIdx := by
      rcases mul_eq_zero.mp h with h' | h'
      · exact Or.inl (sub_eq_zero.mp h')
      · exact Or.inr (sub_eq_zero.mp h')
    simp [h, ht]
  · have ht : ¬(t = sosIdx ∨ t = padIdx) := by
      rintro (h' | h') <;> subst h' <;> simp at h
    simp [h, ht, hp]

lemma wordDropoutTok_protected (rate : ℚ) (hr : rate ≤ 1) (sosIdx padIdx unkIdx : Int)
    (p : ℚ) (t : Int) (ht : t = sosIdx ∨ t = padIdx) :
    wordDropoutTok rate sosIdx padIdx unkIdx p t = t := by
  unfold wordDropoutTok
  have h0 : (t - sosIdx) * (t - padIdx) = 0 := by
    rcases ht with h | h <;> subst h <;> ring
  rw [if_pos h0, if_neg (not_lt.mpr hr)]

lemma probsOk_cons {ps : List ℚ} {probs : List (List ℚ)} {row : List Int}
    {x : List (List Int)} (h : probsOk (ps :: probs) (row :: x) = true) :
    ps.length = row.length ∧ (∀ p ∈ ps, 0 ≤ p ∧ p < 1) ∧ probsOk probs x = true := by
  have h' := h
  unfold probsOk at h'
  simp only [Bool.and_eq_true, decide_eq_true_eq, List.all_eq_true] at h'
  exact ⟨h'.1.1, fun p hp => by
    have := h'.1.2 p hp
    simp only [Bool.and_eq_true, decide_eq_true_eq] at this
    exact this, h'.2⟩

lemma wordDropoutRow_one (sosIdx padIdx unkIdx : Int) :
    ∀ (ps : List ℚ) (xs : List Int), ps.length = xs.length →
      (∀ p ∈ ps, 0 ≤ p ∧ p < 1) →
      wordDropoutRow 1 sosIdx padIdx unkIdx ps xs
        = xs.map (fun tok => if tok = sosIdx ∨ tok = padIdx then tok else unkIdx)
  | [], [], _, _ => rfl
  | p :: ps, t :: xs, hlen, hp => by
      have h1 : p < 1 := (hp p (by simp)).2
      have ih := wordDropoutRow_one sosIdx padIdx unkIdx ps xs
        (by simpa using hlen) (fun q hq => hp q (by simp [hq]))
      simp only [wordDropoutRow, List.zipWith, List.map]
      rw [wordDropoutTok_one sosIdx padIdx unkIdx p h1 t]
      exact congrArg _ ih

lemma get?_zipWith {α β γ : Type} (f : α → β → γ) :
    ∀ (aas : List α) (bs : List β) (i : Nat) (a : α) (b : β),
      aas.get? i = some a → bs.get? i = some b →
      (List.zipWith f aas bs).get? i = some (f a b)
  | [], _, i, _, _, ha, _ => by simp at ha
  | _ :: _, [], i, _, _, _, hb => by simp at hb
  | a' :: aas, b' :: bs, 0, a, b, ha, hb => by
      simp at ha hb
      simp [List.zipWith, ha, hb]
  | a' :: aas, b' :: bs, i + 1, a, b, ha, hb => by
      simp only [List.get?] at ha hb
      simpa [List.zipWith] using get?_zipWith f aas bs i a b ha hb

lemma probsOk_get? : ∀ {probs : List (List ℚ)} {x : List (List Int)},
    probsOk probs x = true → ∀ {i : Nat} {r : List Int}, x.get? i = some r →
      ∃ ps, probs.get? i = some ps ∧ ps.length = r.length ∧ ∀ p ∈ ps, 0 ≤ p ∧ p < 1
  | [], [], _, i, r, hr => by simp at hr
  | ps :: probs, row :: x, h, i, r, hr => by
      obtain ⟨hlen, hbound, hrest⟩ := probsOk_cons h
      cases i with
      | zero =>
          simp at hr
          exact ⟨ps, rfl, hr ▸ hlen, hbound⟩
      | succ i =>
          simp only [List.get?] at hr ⊢
          exact probsOk_get? hrest hr
  | [], _ :: _, h, _, _, _ => by simp [probsOk] at h
  | _ :: _, [], h, _, _, _ => by simp [probsOk] at h

/-- Claim C5: word dropout with rate 0 leaves every decoder input token
unchanged; word dropout with rate 1 replaces exactly the tokens that are
neither the sentence-start id nor the pad id with the unknown-token id; and
at every rate at most 1, sentence-start and pad positions are never
replaced. -/
theorem word_dropout_rates (sosIdx padIdx unkIdx : Int)
    (probs : List (List ℚ)) (x : List (List Int)) :
    wordDropout 0 sosIdx padIdx unkIdx probs x = x ∧
    (probsOk probs x = true →
      wordDropout 1 sosIdx padIdx unkIdx probs x
        = x.map (List.map (fun tok => if tok = sosIdx ∨ tok = padIdx then tok else unkIdx))) ∧
    (∀ rate : ℚ, rate ≤ 1 → probsOk probs x = true →
      ∀ i j r a, x.get? i = some r → r.get? j = some a → (a = sosIdx ∨ a = padIdx) →
        ((wordDropout rate sosIdx padIdx unkIdx probs x).get? i).bind
          (fun row => row.get? j) = some a) := by
  refine ⟨by simp [wordDropout], ?_, ?_⟩
  · intro hok
    rw [wordDropout, if_pos (by norm_num)]
    induction x generalizing probs with
    | nil => cases probs with
      | nil => rfl
      | cons ps probs => simp [probsOk] at hok
    | cons row x ih =>
        cases probs with
        | nil => simp [probsOk] at hok
        | cons ps probs =>
            obtain ⟨hlen, hbound, hrest⟩ := probsOk_cons hok
            simp only [List.zipWith, List.map]
            rw [wordDropoutRow_one sosIdx padIdx unkIdx ps row hlen hbound]
            exact congrArg _ (ih probs hrest)
  · intro rate hrate hok i j r a hi hj ha
    by_cases hpos : 0 < rate
    · obtain ⟨ps, hps, hlen, _⟩ := probsOk_get? hok hi
      have hjlt : j < ps.length := by
        rw [hlen]
        by_contra hh
        rw [List.get?_eq_none.mpr (le_of_not_lt hh)] at hj
        exact Option.noConfusion hj
      cases hp : ps.get? j with
      | none => exact absurd (List.get?_eq_none.mp hp) (not_le.mpr hjlt)
      | some p =>
          rw [wordDropout, if_pos hpos]
          rw [get?_zipWith _ probs x i ps r hps hi]
          show (wordDropoutRow rate sosIdx padIdx unkIdx ps r).get? j = some a
          rw [wordDropoutRow,
            get?_zipWith _ ps r j p a hp hj,
            wordDropoutTok_protected rate hrate sosIdx padIdx unkIdx p a ha]
    · rw [wordDropout, if_neg hpos, hi]
      simpa using hj

/-- Witness for word_dropout_rates with sos = 1, pad = 0, unk = 2 on the row
[1, 3, 0] with all uniform draws equal to 0. -/
theorem word_dropout_rates_witness :
    wordDropout 0 1 0 2 [[0, 0, 0]] [[1, 3, 0]] = [[1, 3, 0]] ∧
    wordDropout 1 1 0 2 [[0, 0, 0]] [[1, 3, 0]] = [[1, 2, 0]] ∧
    ((wordDropout 1 1 0 2 [[0, 0, 0]] [[1, 3, 0]]).get? 0).bind
      (fun row => row.get? 0) = some 1 := by
  have h := word_dropout_rates 1 0 2 [[0, 0, 0]] [[1, 3, 0]]
  refine ⟨h.1, (h.2.1 (by decide)).trans (by decide), ?_⟩
  exact h.2.2 1 le_rfl (by decide) 0 0 [1, 3, 0] 1 rfl rfl (Or.inl rfl)

lemma scatterSet_nil_left {α : Type} (xs : List α) (vals : List α) :
    scatterSet xs [] vals = xs := rfl

lemma scatterSet_nil_right {α : Type} (xs : List α) (idx : List Nat) :
    scatterSet xs idx [] = xs := by
  cases idx <;> rfl

lemma scatterSet_cons {α : Type} (xs : List α) (i : Nat) (idx : List Nat)
    (v : α) (vals : List α) :
    scatterSet xs (i :: idx) (v :: vals) = scatterSet (xs.set i v) idx vals := rfl

lemma scatterSet_length {α : Type} :
    ∀ (idx : List Nat) (vals : List α) (xs : List α),
      (scatterSet xs idx vals).length = xs.length
  | [], _, _ => rfl
  | _ :: _, [], xs => by rw [scatterSet_nil_right]
  | i :: idx, v :: vals, xs => by
      rw [scatterSet_cons, scatterSet_length idx vals, List.length_set]

lemma scatterSet_get?_not_mem {α : Type} :
    ∀ (idx : List Nat) (vals : List α) (xs : List α) (j : Nat), j ∉ idx →
      (scatterSet xs idx vals).get? j = xs.get? j
  | [], _, _, _, _ => rfl
  | _ :: _, [], xs, j, _ => by rw [scatterSet_nil_right]
  | i :: idx, v :: vals, xs, j, hj => by
      have hne : i ≠ j := fun h => hj (by rw [← h]; exact List.mem_cons_self i idx)
      rw [scatterSet_cons, scatterSet_get?_not_mem idx vals _ j
        (fun h => hj (List.mem_cons_of_mem i h)), List.get?_set_ne v xs hne]

lemma scatterSet_get?_mem {α : Type} :
    ∀ (idx : List Nat) (vals : List α) (xs : List α) (i j : Nat), idx.Nodup →
      idx.get? i = some j → i < vals.length → j < xs.length →
      (scatterSet xs idx vals).get? j = vals.get? i
  | [], _, _, i, _, _, hij, _, _ => by simp at hij
  | _ :: _, [], _, i, _, _, _, hi, _ => by simp at hi
  | a :: idx, v :: vals, xs, 0, j, hnd, hij, hi, hj => by
      have haj : a = j := by simpa using hij
      subst haj
      rw [scatterSet_cons,
        scatterSet_get?_not_mem idx vals _ a (List.nodup_cons.mp hnd).1,
        List.get?_set_eq_of_lt v hj]
      rfl
  | a :: idx, v :: vals, xs, i + 1, j, hnd, hij, hi, hj => by
      rw [scatterSet_cons,
        scatterSet_get?_mem idx vals _ i j (List.nodup_cons.mp hnd).2
          (by simpa using hij) (by simpa using hi) (by simpa using hj)]
      rfl

lemma get?_range_map {α : Type} (f : Nat → α) {n g : Nat} (h : g < n) :
    ((List.range n).map f).get? g = some (f g) := by
  rw [List.get?_map, List.get?_range h]
  rfl

lemma getD_range_map {α : Type} (f : Nat → α) (d : α) {n g : Nat} (h : g < n) :
    ((List.range n).map f).getD g d = f g := by
  rw [List.getD_eq_getD_get?, get?_range_map f h]
  rfl

lemma scatterSet_filter_map {α : Type} (n : Nat) (f : Nat → α) (q : Nat → Bool) (h : Nat → α) :
    scatterSet ((List.range n).map f) ((List.range n).filter q)
        ((((List.range n).filter q)).map h)
      = (List.range n).map (fun g => if q g then h g else f g) := by
  have hnd : ((List.range n).filter q).Nodup := List.Nodup.filter q (List.nodup_range n)
  apply List.ext_get?
  intro j
  by_cases hjn : j < n
  · by_cases hq : q j = true
    · have hmem : j ∈ (List.range n).filter q :=
        List.mem_filter.mpr ⟨List.mem_range.mpr hjn, hq⟩
      obtain ⟨i, hi⟩ := List.get?_of_mem hmem
      have hilt : i < ((List.range n).filter q).length := by
        by_contra hh
        rw [List.get?_eq_none.mpr (le_of_not_lt hh)] at hi
        exact Option.noConfusion hi
      rw [scatterSet_get?_mem _ _ _ i j hnd hi (by simpa using hilt)
          (by simpa using hjn),
        List.get?_map, hi, get?_range_map _ hjn]
      simp [hq]
    · have hnmem : j ∉ (List.range n).filter q := fun hmem =>
        hq (List.mem_filter.mp hmem).2
      rw [scatterSet_get?_not_mem _ _ _ j hnmem, get?_range_map f hjn,
        get?_range_map _ hjn]
      simp [hq]
  · have h1 : (((List.range n).map f)).get? j = none := by
      rw [List.get?_eq_none]
      simpa using le_of_not_lt hjn
    have h2 : (((List.range n).map fun g => if q g then h g else f g)).get? j = none := by
      rw [List.get?_eq_none]
      simpa using le_of_not_lt hjn
    rw [h2, ← h1]
    apply scatterSet_get?_not_mem
    intro hmem
    exact hjn (List.mem_range.mp (List.mem_filter.mp hmem).1)

lemma maskedSelect_map_self {α : Type} :
    ∀ (xs : List α) (p : α → Bool), maskedSelect xs (xs.map p) = xs.filter p
  | [], _ => rfl
  | x :: xs, p => by
      rw [List.map_cons, maskedSelect, maskedSelect_map_self xs p, List.filter_cons]

lemma maskedSelect_map_left {α β : Type} (f : α → β) :
    ∀ (xs : List α) (m : List Bool),
      maskedSelect (xs.map f) m = (maskedSelect xs m).map f
  | [], m => by cases m <;> rfl
  | x :: xs, [] => rfl
  | x :: xs, b :: m => by
      rw [List.map_cons, maskedSelect, maskedSelect, maskedSelect_map_left f xs m]
      by_cases h : b = true <;> simp [h]

lemma indexSelect_length {α : Type} [Inhabited α] (xs : List α) (idx : List Nat) :
    (indexSelect xs idx).length = idx.length := by
  simp [indexSelect]

lemma indexSelect_cons_map_succ {α : Type} [Inhabited α] (a : α) (l : List α)
    (js : List Nat) :
    indexSelect (a :: l) (js.map Nat.succ) = indexSelect l js := by
  simp only [indexSelect, List.map_map]
  apply List.map_congr_left
  intro i _
  rfl

lemma indexSelect_filter :
    ∀ (l : List Nat) (p : Nat → Bool),
      indexSelect l (maskedSelect (List.range l.length) (l.map p)) = l.filter p
  | [], p => rfl
  | a :: l, p => by
      rw [List.length_cons, List.range_succ_eq_map, List.map_cons, maskedSelect]
      rw [maskedSelect_map_left Nat.succ (List.range l.length) (l.map p)]
      by_cases h : p a = true
      · rw [if_pos h]
        show (a :: l).getD 0 default ::
            indexSelect (a :: l) ((maskedSelect (List.range l.length) (l.map p)).map Nat.succ)
          = (a :: l).filter p
        rw [indexSelect_cons_map_succ, indexSelect_filter l p, List.filter_cons, if_pos h]
        rfl
      · rw [if_neg h, indexSelect_cons_map_succ, indexSelect_filter l p,
          List.filter_cons, if_neg h]

lemma maskedSelect_range_length (l : List Nat) (p : Nat → Bool) :
    (maskedSelect (List.range l.length) (l.map p)).length = (l.filter p).length := by
  rw [← indexSelect_filter l p, indexSelect_length]

lemma aliveB_zero (eos : Nat) (tok : Nat → Nat → Nat) (g : Nat) :
    aliveB eos tok g 0 = true := rfl

lemma aliveB_succ (eos : Nat) (tok : Nat → Nat → Nat) (g t : Nat) :
    aliveB eos tok g (t + 1) = (aliveB eos tok g t && (tok g t != eos)) := by
  simp [aliveB, List.range_succ]

lemma aliveB_of_succ {eos : Nat} {tok : Nat → Nat → Nat} {g t : Nat}
    (h : aliveB eos tok g (t + 1) = true) : aliveB eos tok g t = true := by
  rw [aliveB_succ] at h
  simp only [Bool.and_eq_true] at h
  exact h.1

lemma aliveB_eq_false_iff (eos : Nat) (tok : Nat → Nat → Nat) (g t : Nat) :
    aliveB eos tok g t = false ↔ ∃ q, q < t ∧ tok g q = eos := by
  constructor
  · intro h
    by_contra hq
    push_neg at hq
    have halive : aliveB eos tok g t = true := by
      simp only [aliveB, List.all_eq_true, List.mem_range]
      intro q hqt
      exact bne_iff_ne.mpr (hq q hqt)
    rw [halive] at h
    exact Bool.noConfusion h
  · rintro ⟨q, hqt, hqe⟩
    cases h : aliveB eos tok g t with
    | false => rfl
    | true =>
        exfalso
        simp only [aliveB, List.all_eq_true, List.mem_range] at h
        exact absurd hqe (bne_iff_ne.mp (h q hqt))

lemma aliveB_true_iff (eos : Nat) (tok : Nat → Nat → Nat) (g t : Nat) :
    aliveB eos tok g t = true ↔ ∀ q, q < t → tok g q ≠ eos := by
  simp only [aliveB, List.all_eq_true, List.mem_range, bne_iff_ne]

lemma rowAt_length (L eos padIdx : Nat) (tok : Nat → Nat → Nat) (t g : Nat) :
    (rowAt L eos padIdx tok t g).length = L := by
  simp [rowAt]

lemma rowAt_get?_lt (L eos padIdx : Nat) (tok : Nat → Nat → Nat) (t g : Nat)
    {q : Nat} (hq : q < L) :
    (rowAt L eos padIdx tok t g).get? q
      = some (if decide (q < t) && aliveB eos tok g q then tok g q else padIdx) := by
  rw [rowAt, get?_range_map _ hq]

lemma rowAt_zero (L eos padIdx : Nat) (tok : Nat → Nat → Nat) (g : Nat) :
    rowAt L eos padIdx tok 0 g = List.replicate L padIdx := by
  rw [rowAt]
  have hc : ∀ q ∈ List.range L,
      (if decide (q < 0) && aliveB eos tok g q then tok g q else padIdx) = padIdx := by
    intro q _
    simp
  rw [List.map_congr_left hc, List.map_const', List.length_range]

lemma rowAt_set (L eos padIdx : Nat) (tok : Nat → Nat → Nat) (t g : Nat)
    (ht : t < L) (ha : aliveB eos tok g t = true) :
    (rowAt L eos padIdx tok t g).set t (tok g t) = rowAt L eos padIdx tok (t + 1) g := by
  apply List.ext_get?
  intro q
  by_cases hq : q < L
  · by_cases hqt : q = t
    · subst hqt
      rw [List.get?_set_eq_of_lt _ (by rw [rowAt_length]; exact ht),
        rowAt_get?_lt _ _ _ _ _ _ hq]
      simp [ha]
    · rw [List.get?_set_ne _ _ (Ne.symm hqt),
        rowAt_get?_lt _ _ _ _ _ _ hq, rowAt_get?_lt _ _ _ _ _ _ hq]
      have hiff : (q < t) ↔ (q < t + 1) := by omega
      rw [decide_eq_decide.mpr hiff]
  · have h1 : ((rowAt L eos padIdx tok t g).set t (tok g t)).get? q = none := by
      rw [List.get?_eq_none, List.length_set, rowAt_length]
      exact le_of_not_lt hq
    have h2 : (rowAt L eos padIdx tok (t + 1) g).get? q = none := by
      rw [List.get?_eq_none, rowAt_length]
      exact le_of_not_lt hq
    rw [h1, h2]

lemma rowAt_frozen (L eos padIdx : Nat) (tok : Nat → Nat → Nat) (t g : Nat)
    (ha : aliveB eos tok g t = false) :
    rowAt L eos padIdx tok (t + 1) g = rowAt L eos padIdx tok t g := by
  rw [rowAt, rowAt]
  apply List.map_congr_left
  intro q _
  rcases Nat.lt_trichotomy q t with h | h | h
  · rw [decide_eq_true h, decide_eq_true (Nat.lt_succ_of_lt h)]
  · subst h
    rw [decide_eq_false (lt_irrefl q), decide_eq_true (Nat.lt_succ_self q), ha]
    simp
  · rw [decide_eq_false (by omega : ¬ q < t),
      decide_eq_false (by omega : ¬ q < t + 1)]

lemma bool_eq_false_of_ne_true {b : Bool} (h : ¬ b = true) : b = false := by
  revert h
  cases b <;> simp

lemma inferenceStep_inv (n L eos padIdx : Nat) (tok : Nat → Nat → Nat) (st : InfState)
    (hinv : Inv n L eos padIdx tok st) (ht : st.t < L) (hne : st.runningSeqs ≠ []) :
    Inv n L eos padIdx tok (inferenceStep eos tok (List.range n) st) ∧
    (inferenceStep eos tok (List.range n) st).t = st.t + 1 ∧
    (inferenceStep eos tok (List.range n) st).sequenceRunning
      = aliveList n eos tok (st.t + 1) := by
  obtain ⟨hg, hm, hs, hlen, hdis⟩ := hinv
  rcases hdis with h0 | ⟨hrow, hrun⟩
  · exact absurd h0 hne
  obtain ⟨gens0, mask0, seq0, run0, row0, t0⟩ := st
  replace hg : gens0 = (List.range n).map (rowAt L eos padIdx tok t0) := hg
  replace hm : mask0 = (List.range n).map (fun g => aliveB eos tok g t0) := hm
  replace hs : seq0 = aliveList n eos tok t0 := hs
  replace hlen : run0.length = seq0.length := hlen
  replace hrow : row0 = aliveList n eos tok t0 := hrow
  replace hrun : run0 = List.range run0.length := hrun
  replace ht : t0 < L := ht
  subst hg hm hs hrow
  have hrun' : run0 = List.range (aliveList n eos tok t0).length := by
    rw [hrun, hlen]
  subst hrun'
  have hmm : List.map (fun w => w != eos)
      (List.map (fun g => tok g t0) (aliveList n eos tok t0))
      = (aliveList n eos tok t0).map (fun g => tok g t0 != eos) := by
    rw [List.map_map]
    rfl
  have hgens : saveSample ((List.range n).map (rowAt L eos padIdx tok t0))
      ((aliveList n eos tok t0).map (fun g => tok g t0)) (aliveList n eos tok t0) t0
      = (List.range n).map (rowAt L eos padIdx tok (t0 + 1)) := by
    simp only [saveSample]
    have hidx : indexSelect ((List.range n).map (rowAt L eos padIdx tok t0))
        (aliveList n eos tok t0)
        = (aliveList n eos tok t0).map (fun g => rowAt L eos padIdx tok t0 g) := by
      simp only [indexSelect]
      apply List.map_congr_left
      intro g hgmem
      have hgn : g < n := List.mem_range.mp (List.mem_filter.mp hgmem).1
      exact getD_range_map _ _ hgn
    rw [hidx, List.zip_map', List.map_map, aliveList,
      scatterSet_filter_map n (rowAt L eos padIdx tok t0)
        (fun g => aliveB eos tok g t0)
        ((fun rs : List Nat × Nat => rs.1.set t0 rs.2) ∘
          (fun g => (rowAt L eos padIdx tok t0 g, tok g t0)))]
    apply List.map_congr_left
    intro g hgmem
    by_cases ha : aliveB eos tok g t0 = true
    · rw [if_pos ha]
      show (rowAt L eos padIdx tok t0 g).set t0 (tok g t0)
        = rowAt L eos padIdx tok (t0 + 1) g
      exact rowAt_set L eos padIdx tok t0 g ht ha
    · rw [if_neg ha]
      exact (rowAt_frozen L eos padIdx tok t0 g (bool_eq_false_of_ne_true ha)).symm
  have hmask : scatterSet ((List.range n).map (fun g => aliveB eos tok g t0))
      (aliveList n eos tok t0) ((aliveList n eos tok t0).map (fun g => tok g t0 != eos))
      = (List.range n).map (fun g => aliveB eos tok g (t0 + 1)) := by
    rw [aliveList, scatterSet_filter_map n (fun g => aliveB eos tok g t0)
      (fun g => aliveB eos tok g t0) (fun g => tok g t0 != eos)]
    apply List.map_congr_left
    intro g _
    by_cases ha : aliveB eos tok g t0 = true
    · rw [if_pos ha, aliveB_succ, ha, Bool.true_and]
    · rw [if_neg ha, aliveB_succ, bool_eq_false_of_ne_true ha, Bool.false_and]
  have hseq : maskedSelect (List.range n)
      ((List.range n).map (fun g => aliveB eos tok g (t0 + 1)))
      = aliveList n eos tok (t0 + 1) := by
    rw [maskedSelect_map_self, aliveList]
  have hfsucc : (aliveList n eos tok t0).filter (fun g => tok g t0 != eos)
      = aliveList n eos tok (t0 + 1) := by
    rw [aliveList, aliveList, List.filter_filter]
    apply List.filter_congr
    intro g _
    rw [Bool.and_comm]
    exact (aliveB_succ eos tok g t0).symm
  have hrseq_idx : indexSelect (aliveList n eos tok t0)
      (maskedSelect (List.range (aliveList n eos tok t0).length)
        ((aliveList n eos tok t0).map (fun g => tok g t0 != eos)))
      = (aliveList n eos tok t0).filter (fun g => tok g t0 != eos) :=
    indexSelect_filter _ _
  have hrseq_len : (maskedSelect (List.range (aliveList n eos tok t0).length)
        ((aliveList n eos tok t0).map (fun g => tok g t0 != eos))).length
      = ((aliveList n eos tok t0).filter (fun g => tok g t0 != eos)).length :=
    maskedSelect_range_length _ _
  simp only [inferenceStep]
  rw [hmm, hgens, hmask, hseq]
  by_cases hR : (maskedSelect (List.range (aliveList n eos tok t0).length)
      ((aliveList n eos tok t0).map (fun g => tok g t0 != eos))).isEmpty = true
  · rw [if_pos hR]
    refine ⟨⟨rfl, rfl, rfl, ?_, Or.inl ?_⟩, rfl, rfl⟩
    · rw [hrseq_len, hfsucc]
    · exact List.isEmpty_iff.mp hR
  · rw [if_neg hR]
    refine ⟨⟨rfl, rfl, rfl, ?_, Or.inr ⟨?_, ?_⟩⟩, rfl, rfl⟩
    · rw [List.length_range, hrseq_len, hfsucc]
    · rw [hrseq_idx, hfsucc]
    · rw [List.length_range]

lemma loopCond_true_iff (L : Nat) (st : InfState) :
    loopCond L st = true ↔ st.t < L ∧ st.runningSeqs ≠ [] := by
  simp [loopCond, List.isEmpty_iff]

lemma inferenceStep_t (eos : Nat) (tok : Nat → Nat → Nat) (seqIdx : List Nat)
    (st : InfState) : (inferenceStep eos tok seqIdx st).t = st.t + 1 := by
  simp only [inferenceStep]
  split <;> rfl

lemma inferenceLoop_inv (n L eos padIdx : Nat) (tok : Nat → Nat → Nat) :
    ∀ (fuel : Nat) (st : InfState), Inv n L eos padIdx tok st →
      Inv n L eos padIdx tok (inferenceLoop L eos tok (List.range n) fuel st)
  | 0, _, h => h
  | fuel + 1, st, h => by
      rw [inferenceLoop]
      by_cases hc : loopCond L st = true
      · rw [if_pos hc]
        obtain ⟨ht, hne⟩ := (loopCond_true_iff L st).mp hc
        exact inferenceLoop_inv n L eos padIdx tok fuel _
          (inferenceStep_inv n L eos padIdx tok st h ht hne).1
      · rw [if_neg hc]
        exact h

lemma inferenceLoop_cond_false (L eos : Nat) (tok : Nat → Nat → Nat) (seqIdx : List Nat) :
    ∀ (fuel : Nat) (st : InfState), L ≤ st.t + fuel →
      loopCond L (inferenceLoop L eos tok seqIdx fuel st) = false
  | 0, st, h => by
      rw [inferenceLoop]
      have hnlt : ¬ st.t < L := by omega
      simp [loopCond, hnlt]
  | fuel + 1, st, h => by
      rw [inferenceLoop]
      by_cases hc : loopCond L st = true
      · rw [if_pos hc]
        apply inferenceLoop_cond_false L eos tok seqIdx fuel
        rw [inferenceStep_t]
        omega
      · rw [if_neg hc]
        exact bool_eq_false_of_ne_true hc

lemma inferenceLoop_t_le (L eos : Nat) (tok : Nat → Nat → Nat) (seqIdx : List Nat) :
    ∀ (fuel : Nat) (st : InfState), st.t ≤ L →
      (inferenceLoop L eos tok seqIdx fuel st).t ≤ L
  | 0, _, h => h
  | fuel + 1, st, h => by
      rw [inferenceLoop]
      by_cases hc : loopCond L st = true
      · rw [if_pos hc]
        apply inferenceLoop_t_le L eos tok seqIdx fuel
        obtain ⟨ht, _⟩ := (loopCond_true_iff L st).mp hc
        rw [inferenceStep_t]
        omega
      · rw [if_neg hc]
        exact h

lemma aliveList_zero (n eos : Nat) (tok : Nat → Nat → Nat) :
    aliveList n eos tok 0 = List.range n := by
  rw [aliveList]
  have hc : ∀ g ∈ List.range n, (aliveB eos tok g 0) = (fun _ : Nat => true) g :=
    fun g _ => rfl
  rw [List.filter_congr hc, List.filter_true]

lemma initState_inv (n L eos padIdx : Nat) (tok : Nat → Nat → Nat) :
    Inv n L eos padIdx tok (initState n L padIdx) := by
  refine ⟨?_, ?_, ?_, rfl, Or.inr ⟨?_, ?_⟩⟩
  · show List.replicate n (List.replicate L padIdx)
      = (List.range n).map (rowAt L eos padIdx tok 0)
    symm
    have hc : ∀ g ∈ List.range n,
        rowAt L eos padIdx tok 0 g = (fun _ : Nat => List.replicate L padIdx) g :=
      fun g _ => rowAt_zero L eos padIdx tok g
    rw [List.map_congr_left hc, List.map_const', List.length_range]
  · show List.replicate n true = (List.range n).map (fun g => aliveB eos tok g 0)
    symm
    have hc : ∀ g ∈ List.range n, aliveB eos tok g 0 = (fun _ : Nat => true) g :=
      fun g _ => rfl
    rw [List.map_congr_left hc, List.map_const', List.length_range]
  · show List.range n = aliveList n eos tok 0
    rw [aliveList_zero]
  · show List.range n = aliveList n eos tok 0
    rw [aliveList_zero]
  · show List.range n = List.range (List.range n).length
    rw [List.length_range]

lemma aliveList_succ_sublist (n eos : Nat) (tok : Nat → Nat → Nat) (t : Nat) :
    (aliveList n eos tok (t + 1)).Sublist (aliveList n eos tok t) := by
  rw [aliveList, aliveList]
  apply List.monotone_filter_right
  intro g hg
  exact aliveB_of_succ hg

lemma inferenceTrace_ne_nil (L eos : Nat) (tok : Nat → Nat → Nat) (seqIdx : List Nat) :
    ∀ (fuel : Nat) (st : InfState), inferenceTrace L eos tok seqIdx fuel st ≠ []
  | 0, st => by simp [inferenceTrace]
  | fuel + 1, st => by
      rw [inferenceTrace]
      by_cases hc : loopCond L st = true
      · rw [if_pos hc]
        simp
      · rw [if_neg hc]
        simp

lemma inferenceTrace_head (L eos : Nat) (tok : Nat → Nat → Nat) (seqIdx : List Nat) :
    ∀ (fuel : Nat) (st : InfState),
      (inferenceTrace L eos tok seqIdx fuel st).head? = some st
  | 0, _ => rfl
  | fuel + 1, st => by
      rw [inferenceTrace]
      by_cases hc : loopCond L st = true
      · rw [if_pos hc]
        rfl
      · rw [if_neg hc]
        rfl

lemma inferenceTrace_chain (n L eos padIdx : Nat) (tok : Nat → Nat → Nat) :
    ∀ (fuel : Nat) (st : InfState), Inv n L eos padIdx tok st →
      List.Chain' (fun a b => b.sequenceRunning.Sublist a.sequenceRunning)
        (inferenceTrace L eos tok (List.range n) fuel st)
  | 0, st, _ => by simp [inferenceTrace]
  | fuel + 1, st, hinv => by
      rw [inferenceTrace]
      by_cases hc : loopCond L st = true
      · rw [if_pos hc]
        obtain ⟨ht, hne⟩ := (loopCond_true_iff L st).mp hc
        obtain ⟨hinv', _, hseq'⟩ := inferenceStep_inv n L eos padIdx tok st hinv ht hne
        rw [List.chain'_cons']
        constructor
        · intro y hy
          rw [inferenceTrace_head] at hy
          have hy' : inferenceStep eos tok (List.range n) st = y := by simpa using hy
          subst hy'
          rw [hseq', hinv.2.2.1]
          exact aliveList_succ_sublist n eos tok st.t
        · exact inferenceTrace_chain n L eos padIdx tok fuel _ hinv'
      · rw [if_neg hc]
        simp

lemma inferenceTrace_dropLast (L eos : Nat) (tok : Nat → Nat → Nat) (seqIdx : List Nat) :
    ∀ (fuel : Nat) (st : InfState),
      List.Forall (fun s => loopCond L s = true)
        (inferenceTrace L eos tok seqIdx fuel st).dropLast
  | 0, st => by simp [inferenceTrace]
  | fuel + 1, st => by
      rw [inferenceTrace]
      by_cases hc : loopCond L st = true
      · rw [if_pos hc]
        have hrest := inferenceTrace_dropLast L eos tok seqIdx fuel
          (inferenceStep eos tok seqIdx st)
        cases htr : inferenceTrace L eos tok seqIdx fuel (inferenceStep eos tok seqIdx st) with
        | nil => exact absurd htr (inferenceTrace_ne_nil L eos tok seqIdx fuel _)
        | cons b l =>
            rw [htr] at hrest
            rw [List.dropLast_cons₂]
            exact (List.forall_cons _ _ _).mpr ⟨hc, hrest⟩
      · rw [if_neg hc]
        simp [inferenceTrace]

lemma inferenceTrace_getLast (L eos : Nat) (tok : Nat → Nat → Nat) (seqIdx : List Nat) :
    ∀ (fuel : Nat) (st : InfState),
      (inferenceTrace L eos tok seqIdx fuel st).getLast?
        = some (inferenceLoop L eos tok seqIdx fuel st)
  | 0, _ => rfl
  | fuel + 1, st => by
      rw [inferenceTrace, inferenceLoop]
      by_cases hc : loopCond L st = true
      · rw [if_pos hc, if_pos hc]
        cases htr : inferenceTrace L eos tok seqIdx fuel (inferenceStep eos tok seqIdx st) with
        | nil => exact absurd htr (inferenceTrace_ne_nil L eos tok seqIdx fuel _)
        | cons b l =>
            rw [List.getLast?_cons_cons, ← htr]
            exact inferenceTrace_getLast L eos tok seqIdx fuel _
      · rw [if_neg hc, if_neg hc]
        rfl

lemma zip_self_map {α β : Type} (l : List α) (f : α → β) :
    l.zip (l.map f) = l.map (fun a => (a, f a)) := by
  conv_lhs => rw [show l.zip (l.map f) = (l.map id).zip (l.map f) by rw [List.map_id]]
  rw [List.zip_map']
  rfl

/-- Claim C4: along the generation loop the global running set only shrinks
(each trace step's sequence_running is a sublist of the previous one, so a
finished sequence never becomes running again), every state except the last
satisfies the loop guard, the trace ends exactly at the loop's result, and
that final state has either t = max_sequence_length or an empty running
set — whichever came first. -/
theorem inference_running_monotone_termination (n L eos padIdx : Nat)
    (tok : Nat → Nat → Nat) :
    List.Chain' (fun a b => b.sequenceRunning.Sublist a.sequenceRunning)
      (inferenceTrace L eos tok (List.range n) L (initState n L padIdx)) ∧
    List.Forall (fun st => loopCond L st = true)
      (inferenceTrace L eos tok (List.range n) L (initState n L padIdx)).dropLast ∧
    (inferenceTrace L eos tok (List.range n) L (initState n L padIdx)).getLast?
      = some (inferenceLoop L eos tok (List.range n) L (initState n L padIdx)) ∧
    ((inferenceLoop L eos tok (List.range n) L (initState n L padIdx)).t = L ∨
      (inferenceLoop L eos tok (List.range n) L (initState n L padIdx)).runningSeqs = []) := by
  refine ⟨inferenceTrace_chain n L eos padIdx tok L _ (initState_inv n L eos padIdx tok),
    inferenceTrace_dropLast L eos tok (List.range n) L _,
    inferenceTrace_getLast L eos tok (List.range n) L _, ?_⟩
  have hcf := inferenceLoop_cond_false L eos tok (List.range n) L (initState n L padIdx)
    (by show L ≤ 0 + L; omega)
  have htle := inferenceLoop_t_le L eos tok (List.range n) L (initState n L padIdx)
    (by show (0 : Nat) ≤ L; omega)
  by_cases hlt : (inferenceLoop L eos tok (List.range n) L (initState n L padIdx)).t < L
  · right
    rw [loopCond, decide_eq_true hlt, Bool.true_and] at hcf
    have hie : (inferenceLoop L eos tok (List.range n) L (initState n L padIdx)).runningSeqs.isEmpty = true := by
      revert hcf
      cases (inferenceLoop L eos tok (List.range n) L (initState n L padIdx)).runningSeqs.isEmpty <;> simp
    exact List.isEmpty_iff.mp hie
  · left
    omega

/-- Claim C2: for every batch size n and max_sequence_length L, the returned
generation buffer has n rows of length L, and every row either shows the
end-of-sequence token at some position p < L followed by pad ids at all later
positions, or contains no end-of-sequence token and holds the sampled token
at every position up to L-1. -/
theorem inference_buffer_spec (n L eos padIdx : Nat) (tok : Nat → Nat → Nat) :
    (inference n L eos padIdx tok).length = n ∧
    List.Forall (fun pr => rowOkP L eos padIdx tok pr.1 pr.2)
      ((List.range n).zip (inference n L eos padIdx tok)) := by
  have hinv := inferenceLoop_inv n L eos padIdx tok L (initState n L padIdx)
    (initState_inv n L eos padIdx tok)
  have hcf := inferenceLoop_cond_false L eos tok (List.range n) L (initState n L padIdx)
    (by show L ≤ 0 + L; omega)
  have htle := inferenceLoop_t_le L eos tok (List.range n) L (initState n L padIdx)
    (by show (0 : Nat) ≤ L; omega)
  set fin := inferenceLoop L eos tok (List.range n) L (initState n L padIdx) with hfin
  obtain ⟨hg, hm, hs, hlen, hdis⟩ := hinv
  have hG : inference n L eos padIdx tok
      = (List.range n).map (rowAt L eos padIdx tok fin.t) := by
    rw [inference, ← hfin, hg]
  have hdead : L ≤ fin.t ∨ ∀ g, g < n → aliveB eos tok g fin.t = false := by
    by_cases hlt : fin.t < L
    · right
      rw [loopCond, decide_eq_true hlt, Bool.true_and] at hcf
      have hie : fin.runningSeqs.isEmpty = true := by
        revert hcf
        cases fin.runningSeqs.isEmpty <;> simp
      have hnil : fin.runningSeqs = [] := List.isEmpty_iff.mp hie
      have hlen0 : fin.sequenceRunning.length = 0 := by
        rw [← hlen, hnil]
        rfl
      have hsl : aliveList n eos tok fin.t = [] := by
        apply List.length_eq_zero.mp
        rw [← hs]
        exact hlen0
      intro g hgn
      rw [aliveList] at hsl
      exact bool_eq_false_of_ne_true
        ((List.filter_eq_nil.mp hsl) g (List.mem_range.mpr hgn))
    · left
      omega
  have hrowOk : ∀ g, g < n → rowOkP L eos padIdx tok g (rowAt L eos padIdx tok fin.t g) := by
    intro g hgn
    refine ⟨rowAt_length _ _ _ _ _ _, ?_⟩
    by_cases heos : ∃ q, q < L ∧ tok g q = eos
    · left
      obtain ⟨q0, hq0L, hq0e⟩ := heos
      have hex : ∃ q, tok g q = eos := ⟨q0, hq0e⟩
      have hpe : tok g (Nat.find hex) = eos := Nat.find_spec hex
      have hpmin : ∀ q, q < Nat.find hex → tok g q ≠ eos :=
        fun q hq => Nat.find_min hex hq
      have hpL : Nat.find hex < L := lt_of_le_of_lt (Nat.find_min' hex hq0e) hq0L
      have hptf : Nat.find hex < fin.t := by
        rcases hdead with hd | hd
        · omega
        · have hgf := hd g hgn
          rw [aliveB_eq_false_iff] at hgf
          obtain ⟨q, hqt, hqe⟩ := hgf
          have := Nat.find_min' hex hqe
          omega
      have halivep : aliveB eos tok g (Nat.find hex) = true :=
        (aliveB_true_iff eos tok g (Nat.find hex)).mpr hpmin
      refine ⟨Nat.find hex, hpL, ?_, ?_⟩
      · rw [rowAt_get?_lt _ _ _ _ _ _ hpL, decide_eq_true hptf, halivep]
        simp [hpe]
      · intro q hpq hqL
        rw [rowAt_get?_lt _ _ _ _ _ _ hqL]
        have hqdead : aliveB eos tok g q = false :=
          (aliveB_eq_false_iff eos tok g q).mpr ⟨Nat.find hex, hpq, hpe⟩
        rw [hqdead, Bool.and_false]
        simp
    · right
      push_neg at heos
      have hLt : L ≤ fin.t := by
        rcases hdead with hd | hd
        · exact hd
        · exfalso
          have hgf := hd g hgn
          rw [aliveB_eq_false_iff] at hgf
          obtain ⟨q, hqt, hqe⟩ := hgf
          exact heos q (by omega) hqe
      have hrow_eq : rowAt L eos padIdx tok fin.t g
          = (List.range L).map (fun q => tok g q) := by
        rw [rowAt]
        apply List.map_congr_left
        intro q hq
        have hqL := List.mem_range.mp hq
        have h2 : aliveB eos tok g q = true :=
          (aliveB_true_iff eos tok g q).mpr (fun q' hq' => heos q' (by omega))
        rw [decide_eq_true (by omega : q < fin.t), h2]
        simp
      refine ⟨?_, hrow_eq⟩
      rw [hrow_eq]
      intro hmem
      rw [List.mem_map] at hmem
      obtain ⟨q, hq, hqe⟩ := hmem
      exact heos q (List.mem_range.mp hq) hqe
  constructor
  · rw [hG, List.length_map, List.length_range]
  · rw [hG, zip_self_map, List.forall_iff_forall_mem]
    intro pr hpr
    rw [List.mem_map] at hpr
    obtain ⟨g, hgmem, rfl⟩ := hpr
    exact hrowOk g (List.mem_range.mp hgmem)

/-- Sanity check of the generation-loop embedding on a concrete run: with
eos = 9 and pad = 0, a sampler that emits eos for row 0 at step 1 and the
token 5 everywhere else fills row 0 as [5, 9, 0] and row 1 as [5, 5, 5]. -/
theorem inference_sanity_example :
    inference 2 3 9 0 (fun g t => if g = 0 && t = 1 then 9 else 5)
      = [[5, 9, 0], [5, 5, 5]] := by decide

end VaeSpec
